import Mathlib

/-
  Verification of the script execution pipeline of the tools-app repository
  (src/src/app/api/scripts/execute/route.ts).

  The route handler is shallowly embedded:
  * the parameter binder (route.ts lines 63-70) as pure string functions;
  * the pre-flight authorization checks (route.ts lines 28-60) as a pure
    decision function;
  * the SSE stream body (route.ts lines 76-191) as a state machine driven
    by an explicit list of arrival signals (stdout data / stdout EOF /
    stderr data / stderr EOF / process close / timer firing / spawn error /
    settlement of a pending persistence promise), which models the
    single-threaded JavaScript event loop: each callback runs to completion,
    and callbacks may arrive in any order.
-/

namespace ToolsApp

/-! ## Parameter binder (route.ts lines 63-70)

    let psScript = script.content;
    if (params && Object.keys(params).length > 0) then the handler maps
    each entry to a template line of the form
        dollar KEY space equals space QUOTE escaped-VALUE QUOTE
    joins the lines with a newline, and sets
        psScript = paramBlock + two newlines + psScript.

  The value transform is String(value).replace(/"/g, BACKTICK + QUOTE),
  a global replacement of each double-quote character by the two-character
  sequence backtick, double-quote. -/

/-- The double-quote character. -/
def dquote : Char := Char.ofNat 34

/-- The backtick character (the PowerShell escape character). -/
def backtick : Char := Char.ofNat 96

/-- Character-level model of JavaScript value.replace(/"/g, backtick-quote):
every double quote is replaced by the two-character sequence
backtick, double-quote; all other characters pass through unchanged. -/
def escapeQuotesL : List Char → List Char
  | [] => []
  | c :: cs =>
    if c = dquote then backtick :: dquote :: escapeQuotesL cs
    else c :: escapeQuotesL cs

/-- String-level wrapper of the quote-escaping transform. -/
def escapeQuotes (s : String) : String := String.mk (escapeQuotesL s.data)

/-- One variable-assignment line of the parameter block:
dollar, key, space-equals-space, then the escaped value in double quotes. -/
def assignLine (key value : String) : String :=
  "$" ++ key ++ " = " ++ "\"" ++ escapeQuotes value ++ "\""

/-- The composed script text written to the interpreter standard input
(route.ts lines 63-70 and 188).  A missing map (JavaScript null or
undefined params) and an empty map both leave the body untouched. -/
def buildPsScript (params : Option (List (String × String))) (body : String) : String :=
  match params with
  | none => body
  | some ps =>
    if ps.isEmpty then body
    else String.intercalate "\n" (ps.map fun kv => assignLine kv.1 kv.2) ++ "\n\n" ++ body

/-- Inverse of the escaping transform: each backtick-quote pair collapses
back to a bare double quote. -/
def unescapeQuotesL : List Char → List Char
  | [] => []
  | [c] => [c]
  | c :: d :: cs =>
    if c = backtick ∧ d = dquote then dquote :: unescapeQuotesL cs
    else c :: unescapeQuotesL (d :: cs)

/-- Checks that no double quote occurs without an immediately preceding
backtick, i.e. every embedded quote is escaped. -/
def noBareQuote : List Char → Bool
  | [] => true
  | [c] => !(c = dquote : Bool)
  | c :: d :: cs =>
    if c = dquote then false
    else if c = backtick ∧ d = dquote then noBareQuote cs
    else noBareQuote (d :: cs)

lemma escapeQuotesL_head_ne_dquote (cs : List Char) :
    ∀ r, escapeQuotesL cs = dquote :: r → False := by
  intro r h
  cases cs with
  | nil => simp [escapeQuotesL] at h
  | cons c cs =>
    by_cases hc : c = dquote
    · rw [escapeQuotesL, if_pos hc] at h
      injection h with h1 _
      exact absurd h1 (by decide)
    · rw [escapeQuotesL, if_neg hc] at h
      injection h with h1 _
      exact hc h1

lemma noBareQuote_escapeQuotesL (cs : List Char) :
    noBareQuote (escapeQuotesL cs) = true := by
  have hbd : ¬ (backtick = dquote) := by decide
  induction cs with
  | nil => simp [escapeQuotesL, noBareQuote]
  | cons c cs ih =>
    by_cases hc : c = dquote
    · rw [escapeQuotesL, if_pos hc]
      simpa [noBareQuote, hbd] using ih
    · rw [escapeQuotesL, if_neg hc]
      cases he : escapeQuotesL cs with
      | nil => simp [noBareQuote, hc]
      | cons d r =>
        have hd : ¬ (d = dquote) := by
          intro hdq
          exact escapeQuotesL_head_ne_dquote cs r (by rw [he, hdq])
        rw [he] at ih
        simp [noBareQuote, hc, hd, ih]

lemma unescape_escapeQuotesL (cs : List Char) :
    unescapeQuotesL (escapeQuotesL cs) = cs := by
  induction cs with
  | nil => simp [escapeQuotesL, unescapeQuotesL]
  | cons c cs ih =>
    by_cases hc : c = dquote
    · rw [escapeQuotesL, if_pos hc]
      simp [unescapeQuotesL, hc, ih]
    · rw [escapeQuotesL, if_neg hc]
      cases he : escapeQuotesL cs with
      | nil =>
        have hcs : cs = [] := by
          rw [he] at ih
          simpa [unescapeQuotesL] using ih.symm
        simp [unescapeQuotesL, hcs]
      | cons d r =>
        have hd : ¬ (d = dquote) := by
          intro hdq
          exact escapeQuotesL_head_ne_dquote cs r (by rw [he, hdq])
        have hrest : unescapeQuotesL (d :: r) = cs := by rw [← he]; exact ih
        simp [unescapeQuotesL, hd, hrest]

/-- Claim C8: for every non-empty parameter map the composed script text is
one variable-assignment line per supplied parameter (value quoted, every
embedded double quote escaped with a backtick, and recoverable by
unescaping), followed by a blank line, followed by the original stored
script body unmodified as a verbatim suffix. -/
theorem c8_parameter_binding (ps : List (String × String)) (body : String)
    (h : ps ≠ []) :
    buildPsScript (some ps) body =
      String.intercalate "\n" (ps.map fun kv => assignLine kv.1 kv.2) ++ "\n\n" ++ body
    ∧ ∀ kv ∈ ps,
        assignLine kv.1 kv.2 = "$" ++ kv.1 ++ " = " ++ "\"" ++ escapeQuotes kv.2 ++ "\""
        ∧ noBareQuote (escapeQuotes kv.2).data = true
        ∧ unescapeQuotesL (escapeQuotes kv.2).data = kv.2.data := by
  constructor
  · simp [buildPsScript, List.isEmpty_iff, h]
  · intro kv _
    refine ⟨rfl, ?_, ?_⟩
    · simpa [escapeQuotes] using noBareQuote_escapeQuotesL kv.2.data
    · simpa [escapeQuotes] using unescape_escapeQuotesL kv.2.data

/-- Witness for C8 at the parameter map of the specification test
(Count = 5, Note = a "quoted" value). -/
theorem c8_parameter_binding_witness :
    buildPsScript (some [("Count", "5"), ("Note", "a \"quoted\" value")]) "Get-Date" =
      String.intercalate "\n"
        (([("Count", "5"), ("Note", "a \"quoted\" value")]).map fun kv => assignLine kv.1 kv.2)
        ++ "\n\n" ++ "Get-Date"
    ∧ ∀ kv ∈ [("Count", "5"), ("Note", "a \"quoted\" value")],
        assignLine kv.1 kv.2 = "$" ++ kv.1 ++ " = " ++ "\"" ++ escapeQuotes kv.2 ++ "\""
        ∧ noBareQuote (escapeQuotes kv.2).data = true
        ∧ unescapeQuotesL (escapeQuotes kv.2).data = kv.2.data :=
  c8_parameter_binding [("Count", "5"), ("Note", "a \"quoted\" value")] "Get-Date"
    (by simp)

/-- Claim C10: with an absent or empty parameter map the text fed to the
interpreter standard input is the stored script body exactly, with no
assignment prefix and no blank-line separator prepended. -/
theorem c10_empty_params_identity (body : String) :
    buildPsScript none body = body ∧ buildPsScript (some []) body = body :=
  ⟨rfl, rfl⟩

/-! ## The SSE stream body as a state machine (route.ts lines 76-191)

  JavaScript is single threaded: each of the registered callbacks (stdout
  data, stdout end, stderr data, stderr end, process close, the timeout
  timer, the spawn error handler, and the .finally continuation of each
  prisma.scriptExecution.update promise) runs to completion, and the event
  loop may deliver them in any order.  A run of the stream body is
  therefore modelled as folding a step function over an arbitrary list of
  arrival signals.  The .finally continuation is split out as its own
  signal (Sig.settle) because the persistence promise settles
  asynchronously; its Boolean records whether the update fulfilled or
  rejected, which the code never inspects (.finally runs either way). -/

/-- One server-sent event frame as passed to send(event, data)
(route.ts line 83). -/
structure SseEvent where
  event : String
  data : String
deriving DecidableEq

/-- The data object passed to prisma.scriptExecution.update.  A field that
the code leaves undefined (omitted from the update) is none.  The endedAt
wall-clock timestamp is not modelled. -/
structure UpdateData where
  status : String
  output : Option String
  error : Option String
deriving DecidableEq

/-- Observable action of the stream body, in chronological order:
an enqueued client event, an initiated persistence update, the settlement
of a persistence promise (true = fulfilled, false = rejected), a signal
sent to the subprocess via ps.kill, or controller.close(). -/
inductive Action where
  | ev (e : SseEvent)
  | update (u : UpdateData)
  | settled (ok : Bool)
  | kill (signal : String)
  | closeCtl
deriving DecidableEq

/-- The mutable closure state of the stream body: the closed flag
(route.ts line 81), the three completion flags (lines 101-103), the timer
armed flag (clearTimeout disarms it, firing consumes it), the two
accumulators (lines 79-80), the statuses of registered but not yet run
.finally continuations, and the chronological action log. -/
structure St where
  closed : Bool
  stdoutDone : Bool
  stderrDone : Bool
  exitCode : Option Int
  timerArmed : Bool
  fullOutput : String
  fullStderr : String
  pending : List String
  log : List Action
deriving DecidableEq

/-- Configuration of one request: the parsed SCRIPT_TIMEOUT_MS value
(route.ts line 72, default 120000) and the created Execution row id. -/
structure Config where
  timeoutMs : Nat
  executionId : String

/-- Arrival signals deliverable by the event loop. -/
inductive Sig where
  | outData (s : String)
  | errData (s : String)
  | outEnd
  | errEnd
  | procClose (code : Option Int)
  | timerFire
  | spawnErr (msg : String)
  | settle (i : Nat) (ok : Bool)

/-- send(event, data) (route.ts lines 83-86): enqueue unless closed. -/
def send (st : St) (event data : String) : St :=
  if st.closed then st
  else { st with log := st.log ++ [Action.ev { event := event, data := data }] }

/-- closeController() (route.ts lines 88-92): set closed and close once. -/
def closeController (st : St) : St :=
  if st.closed then st
  else { st with closed := true, log := st.log ++ [Action.closeCtl] }

/-- The synthesized timeout message (route.ts lines 151 and 156).
JavaScript computes timeoutMs / 1000 in floating point; this equals the
natural-number quotient whenever 1000 divides timeoutMs (as it does for
the default 120000). -/
def timeoutMessage (cfg : Config) : String :=
  "Script execution timed out after " ++ toString (cfg.timeoutMs / 1000) ++ "s"

/-- The synthesized spawn-failure message (route.ts line 172). -/
def spawnFailMessage (errMsg : String) : String :=
  "Failed to start PowerShell: " ++ errMsg

/-- The synthesized nonzero-exit fallback message (route.ts line 118). -/
def exitCodeMessage (code : Int) : String :=
  "PowerShell exited with code " ++ toString code

/-- prisma.scriptExecution.update(...).finally(...) as initiated by a
finalize path: log the update and register the .finally continuation,
which will later send the done event carrying this status. -/
def finalizeRecord (st : St) (u : UpdateData) (status : String) : St :=
  { st with log := st.log ++ [Action.update u], pending := st.pending ++ [status] }

/-- tryFinalize() (route.ts lines 105-125).  It proceeds only when both
streams are drained and the exit code has been observed; it clears the
timer, then initiates the natural-completion update.  JavaScript
fullOutput || x and fullStderr || x read the accumulator when it is a
non-empty string and the fallback otherwise. -/
def tryFinalize (st : St) : St :=
  if st.stdoutDone && st.stderrDone && st.exitCode.isSome then
    let code := st.exitCode.getD 1
    let status := if code = 0 then "SUCCESS" else "FAILED"
    let outputField :=
      if st.fullOutput = "" then (if code = 0 then some "(no output)" else none)
      else some st.fullOutput
    let errorField :=
      if code = 0 then none
      else if st.fullStderr = "" then some (exitCodeMessage code)
      else some st.fullStderr
    finalizeRecord { st with timerArmed := false }
      { status := status, output := outputField, error := errorField } status
  else st

/-- The setTimeout callback (route.ts lines 149-163): kill the subprocess
with SIGTERM, send the error event, initiate the timeout update.  A timer
that was cleared (or already fired) never fires, which the armed flag
encodes. -/
def fireTimer (cfg : Config) (st : St) : St :=
  if st.timerArmed then
    let msg := timeoutMessage cfg
    let st1 := { st with timerArmed := false, log := st.log ++ [Action.kill "SIGTERM"] }
    let st2 := send st1 "error" msg
    finalizeRecord st2 { status := "FAILED", output := none, error := some msg } "FAILED"
  else st

/-- The ps.on error handler (route.ts lines 170-185): clear the timer,
send the error event, initiate the spawn-failure update. -/
def fireSpawnError (st : St) (errMsg : String) : St :=
  let msg := spawnFailMessage errMsg
  let st1 := { st with timerArmed := false }
  let st2 := send st1 "error" msg
  finalizeRecord st2 { status := "FAILED", output := none, error := some msg } "FAILED"

/-- Settlement of the i-th pending persistence promise: its .finally
continuation runs (route.ts lines 121-124, 159-162, 181-184), sending the
done event for its status and closing the controller.  The Boolean
settlement outcome is logged but never read: .finally runs on fulfillment
and rejection alike. -/
def fireSettle (st : St) (i : Nat) (ok : Bool) : St :=
  match st.pending.get? i with
  | none => st
  | some status =>
    let st1 := { st with pending := st.pending.eraseIdx i,
                         log := st.log ++ [Action.settled ok] }
    closeController (send st1 "done" status)

/-- One event-loop delivery. -/
def step (cfg : Config) (st : St) : Sig → St
  | Sig.outData s => send { st with fullOutput := st.fullOutput ++ s } "stdout" s
  | Sig.errData s => send { st with fullStderr := st.fullStderr ++ s } "stderr" s
  | Sig.outEnd => tryFinalize { st with stdoutDone := true }
  | Sig.errEnd => tryFinalize { st with stderrDone := true }
  | Sig.procClose code => tryFinalize { st with exitCode := some (code.getD 1) }
  | Sig.timerFire => fireTimer cfg st
  | Sig.spawnErr m => fireSpawnError st m
  | Sig.settle i ok => fireSettle st i ok

/-- The state after start(controller) has run its synchronous prefix
(route.ts lines 77-103 and 187-189): nothing closed, timer armed,
accumulators empty, and the execution-id event already enqueued
(line 94). -/
def initSt (cfg : Config) : St :=
  { closed := false, stdoutDone := false, stderrDone := false,
    exitCode := none, timerArmed := true,
    fullOutput := "", fullStderr := "", pending := [],
    log := [Action.ev { event := "execution_id", data := cfg.executionId }] }

/-- Run the stream body against an arrival ordering of signals. -/
def run (cfg : Config) (sigs : List Sig) : St :=
  sigs.foldl (step cfg) (initSt cfg)

/-- The client-observed event sequence: the enqueued frames, in order. -/
def events (st : St) : List SseEvent :=
  st.log.filterMap fun a =>
    match a with
    | Action.ev e => some e
    | _ => none

/-- The persistence updates initiated, in order. -/
def updates (st : St) : List UpdateData :=
  st.log.filterMap fun a =>
    match a with
    | Action.update u => some u
    | _ => none

/-- Number of done events the client observed. -/
def doneCount (evs : List SseEvent) : Nat :=
  (evs.filter fun e => e.event == "done").length

/-! ### Basic lemmas about the step functions -/

lemma events_log_cons_ev (st : St) (e : SseEvent) :
    events { st with log := st.log ++ [Action.ev e] } = events st ++ [e] := by
  simp [events, List.filterMap_append]

lemma events_log_cons_update (st : St) (u : UpdateData) :
    events { st with log := st.log ++ [Action.update u] } = events st := by
  simp [events, List.filterMap_append]

lemma events_finalizeRecord (st : St) (u : UpdateData) (s : String) :
    events (finalizeRecord st u s) = events st := by
  simp [events, finalizeRecord, List.filterMap_append]

lemma finalizeRecord_closed (st : St) (u : UpdateData) (s : String) :
    (finalizeRecord st u s).closed = st.closed := rfl

lemma finalizeRecord_pending (st : St) (u : UpdateData) (s : String) :
    (finalizeRecord st u s).pending = st.pending ++ [s] := rfl

lemma send_closed_flag (st : St) (e d : String) : (send st e d).closed = st.closed := by
  unfold send; split <;> rfl

lemma send_pending (st : St) (e d : String) : (send st e d).pending = st.pending := by
  unfold send; split <;> rfl

lemma events_send (st : St) (e d : String) :
    events (send st e d) =
      if st.closed then events st else events st ++ [{ event := e, data := d }] := by
  unfold send
  split <;> simp_all [events, List.filterMap_append]

lemma tryFinalize_closed (st : St) : (tryFinalize st).closed = st.closed := by
  unfold tryFinalize; split <;> rfl

lemma events_tryFinalize (st : St) : events (tryFinalize st) = events st := by
  unfold tryFinalize
  split
  · exact events_finalizeRecord _ _ _
  · rfl

lemma tryFinalize_pending (st : St) :
    (tryFinalize st).pending = st.pending ∨
      ∃ s, (tryFinalize st).pending = st.pending ++ [s] ∧ (s = "SUCCESS" ∨ s = "FAILED") := by
  unfold tryFinalize
  split
  · right
    refine ⟨_, finalizeRecord_pending _ _ _, ?_⟩
    split
    · exact Or.inl rfl
    · exact Or.inr rfl
  · exact Or.inl rfl

lemma fireTimer_closed (cfg : Config) (st : St) : (fireTimer cfg st).closed = st.closed := by
  unfold fireTimer
  split
  · rw [finalizeRecord_closed, send_closed_flag]
  · rfl

lemma events_fireTimer (cfg : Config) (st : St) :
    events (fireTimer cfg st) = events st ∨
      events (fireTimer cfg st) = events st ++ [{ event := "error", data := timeoutMessage cfg }] := by
  unfold fireTimer
  split
  · rw [events_finalizeRecord, events_send]
    split
    · left
      simp [events, List.filterMap_append]
    · right
      simp [events, List.filterMap_append]
  · exact Or.inl rfl

lemma fireTimer_pending (cfg : Config) (st : St) :
    (fireTimer cfg st).pending = st.pending ∨
      (fireTimer cfg st).pending = st.pending ++ ["FAILED"] := by
  unfold fireTimer
  split
  · right
    simp [finalizeRecord_pending, send_pending]
  · exact Or.inl rfl

lemma fireSpawnError_closed (st : St) (m : String) :
    (fireSpawnError st m).closed = st.closed := by
  unfold fireSpawnError
  rw [finalizeRecord_closed, send_closed_flag]

lemma events_fireSpawnError (st : St) (m : String) :
    events (fireSpawnError st m) = events st ∨
      events (fireSpawnError st m) = events st ++ [{ event := "error", data := spawnFailMessage m }] := by
  unfold fireSpawnError
  rw [events_finalizeRecord, events_send]
  split
  · left
    simp [events]
  · right
    simp [events]

lemma fireSpawnError_pending (st : St) (m : String) :
    (fireSpawnError st m).pending = st.pending ++ ["FAILED"] := by
  unfold fireSpawnError
  simp [finalizeRecord_pending, send_pending]

lemma events_fireTimer_closed (cfg : Config) (st : St) (h : st.closed = true) :
    events (fireTimer cfg st) = events st := by
  unfold fireTimer
  split
  · rw [events_finalizeRecord, events_send]
    simp [events, List.filterMap_append, h]
  · rfl

lemma events_fireSpawnError_closed (st : St) (m : String) (h : st.closed = true) :
    events (fireSpawnError st m) = events st := by
  unfold fireSpawnError
  rw [events_finalizeRecord, events_send]
  simp [events, h]

/-- Full case analysis of a settlement delivery. -/
lemma fireSettle_cases (st : St) (i : Nat) (ok : Bool) :
    fireSettle st i ok = st ∨
      ∃ status, st.pending.get? i = some status ∧
        (fireSettle st i ok).pending = st.pending.eraseIdx i ∧
        (fireSettle st i ok).closed = true ∧
        ((st.closed = true ∧ events (fireSettle st i ok) = events st)
          ∨ (st.closed = false ∧
             events (fireSettle st i ok) = events st ++ [{ event := "done", data := status }])) := by
  unfold fireSettle
  cases hm : st.pending.get? i with
  | none => exact Or.inl rfl
  | some status =>
    right
    refine ⟨status, rfl, ?_⟩
    by_cases hc : st.closed = true
    · simp [send, closeController, hc, events, List.filterMap_append]
    · simp only [Bool.not_eq_true] at hc
      simp [send, closeController, hc, events, List.filterMap_append]

/-! ### The main stream invariant

  At every reachable state: the first enqueued event is the execution-id
  event and it never recurs; while the controller is open no done event
  has been enqueued; once the controller is closed the event sequence ends
  with a single done event whose payload is the literal SUCCESS or FAILED;
  and every registered .finally continuation carries one of those two
  status literals. -/

def Inv (cfg : Config) (st : St) : Prop :=
  (events st).head? = some { event := "execution_id", data := cfg.executionId }
  ∧ (∀ e ∈ (events st).tail, e.event ≠ "execution_id")
  ∧ (st.closed = false → ∀ e ∈ events st, e.event ≠ "done")
  ∧ (st.closed = true → ∃ l s, events st = l ++ [{ event := "done", data := s }]
        ∧ (∀ e ∈ l, e.event ≠ "done") ∧ (s = "SUCCESS" ∨ s = "FAILED"))
  ∧ (∀ s ∈ st.pending, s = "SUCCESS" ∨ s = "FAILED")

lemma inv_init (cfg : Config) : Inv cfg (initSt cfg) := by
  refine ⟨rfl, ?_, ?_, ?_, ?_⟩
  · intro e he
    simp [events, initSt] at he
  · intro _ e he
    simp [events, initSt] at he
    simp [he]
  · intro h
    simp [initSt] at h
  · intro s hs
    simp [initSt] at hs

/-- Extension principle: a step that leaves the closed flag unchanged,
appends at most one non-done, non-execution-id event (and only while
open), and registers only SUCCESS or FAILED continuations preserves the
invariant. -/
lemma inv_extend (cfg : Config) (st st' : St) (hInv : Inv cfg st)
    (hc : st'.closed = st.closed)
    (he : events st' = events st ∨
      (st.closed = false ∧ ∃ e, events st' = events st ++ [e]
        ∧ e.event ≠ "done" ∧ e.event ≠ "execution_id"))
    (hp : ∀ s ∈ st'.pending, s ∈ st.pending ∨ s = "SUCCESS" ∨ s = "FAILED") :
    Inv cfg st' := by
  obtain ⟨h1, h2, h3, h4, h5⟩ := hInv
  have hne : events st ≠ [] := by
    intro h
    rw [h] at h1
    simp at h1
  obtain ⟨a, as, hcons⟩ := List.exists_cons_of_ne_nil hne
  refine ⟨?_, ?_, ?_, ?_, ?_⟩
  · rcases he with he | ⟨_, e, he, _⟩
    · rw [he]; exact h1
    · rw [he, hcons]
      rw [hcons] at h1
      simpa using h1
  · rcases he with he | ⟨_, e, he, _, hid⟩
    · rw [he]; exact h2
    · rw [he, hcons]
      rw [hcons] at h2
      intro x hx
      simp only [List.cons_append, List.tail_cons, List.mem_append, List.mem_singleton] at hx
      rcases hx with hx | hx
      · exact h2 x (by simpa using hx)
      · rw [hx]; exact hid
  · intro hcl
    rw [hc] at hcl
    rcases he with he | ⟨_, e, he, hd, _⟩
    · rw [he]; exact h3 hcl
    · rw [he]
      intro x hx
      rcases List.mem_append.mp hx with hx | hx
      · exact h3 hcl x hx
      · rw [List.mem_singleton.mp hx]; exact hd
  · intro hcl
    rw [hc] at hcl
    rcases he with he | ⟨hop, _, _, _, _⟩
    · rw [he]; exact h4 hcl
    · rw [hop] at hcl; cases hcl
  · intro s hs
    rcases hp s hs with hmem | hlit
    · exact h5 s hmem
    · exact hlit

lemma inv_step (cfg : Config) (st : St) (sig : Sig) (hInv : Inv cfg st) :
    Inv cfg (step cfg st sig) := by
  cases sig with
  | outData s =>
    refine inv_extend cfg st _ hInv (by simp [step, send_closed_flag]) ?_
      (by simp [step, send_pending]; tauto)
    have := events_send { st with fullOutput := st.fullOutput ++ s } "stdout" s
    by_cases hc : st.closed = true
    · left
      simp only [step]
      rw [this]
      simp [hc, events]
    · simp only [Bool.not_eq_true] at hc
      right
      refine ⟨hc, { event := "stdout", data := s }, ?_,
        by show ("stdout" : String) ≠ "done"; decide,
        by show ("stdout" : String) ≠ "execution_id"; decide⟩
      simp only [step]
      rw [this]
      simp [hc, events]
  | errData s =>
    refine inv_extend cfg st _ hInv (by simp [step, send_closed_flag]) ?_
      (by simp [step, send_pending]; tauto)
    have := events_send { st with fullStderr := st.fullStderr ++ s } "stderr" s
    by_cases hc : st.closed = true
    · left
      simp only [step]
      rw [this]
      simp [hc, events]
    · simp only [Bool.not_eq_true] at hc
      right
      refine ⟨hc, { event := "stderr", data := s }, ?_,
        by show ("stderr" : String) ≠ "done"; decide,
        by show ("stderr" : String) ≠ "execution_id"; decide⟩
      simp only [step]
      rw [this]
      simp [hc, events]
  | outEnd =>
    refine inv_extend cfg st _ hInv (by simp [step, tryFinalize_closed]) ?_ ?_
    · left
      simp only [step]
      rw [events_tryFinalize]
      simp [events]
    · intro s hs
      simp only [step] at hs
      rcases tryFinalize_pending { st with stdoutDone := true } with hp | ⟨x, hp, hx⟩
      · rw [hp] at hs; exact Or.inl hs
      · rw [hp] at hs
        rcases List.mem_append.mp hs with h | h
        · exact Or.inl h
        · rw [List.mem_singleton.mp h]; exact Or.inr hx
  | errEnd =>
    refine inv_extend cfg st _ hInv (by simp [step, tryFinalize_closed]) ?_ ?_
    · left
      simp only [step]
      rw [events_tryFinalize]
      simp [events]
    · intro s hs
      simp only [step] at hs
      rcases tryFinalize_pending { st with stderrDone := true } with hp | ⟨x, hp, hx⟩
      · rw [hp] at hs; exact Or.inl hs
      · rw [hp] at hs
        rcases List.mem_append.mp hs with h | h
        · exact Or.inl h
        · rw [List.mem_singleton.mp h]; exact Or.inr hx
  | procClose code =>
    refine inv_extend cfg st _ hInv (by simp [step, tryFinalize_closed]) ?_ ?_
    · left
      simp only [step]
      rw [events_tryFinalize]
      simp [events]
    · intro s hs
      simp only [step] at hs
      rcases tryFinalize_pending { st with exitCode := some (code.getD 1) } with hp | ⟨x, hp, hx⟩
      · rw [hp] at hs; exact Or.inl hs
      · rw [hp] at hs
        rcases List.mem_append.mp hs with h | h
        · exact Or.inl h
        · rw [List.mem_singleton.mp h]; exact Or.inr hx
  | timerFire =>
    refine inv_extend cfg st _ hInv (by simp [step, fireTimer_closed]) ?_ ?_
    · by_cases hc : st.closed = true
      · left
        simp only [step]
        exact events_fireTimer_closed cfg st hc
      · simp only [Bool.not_eq_true] at hc
        rcases events_fireTimer cfg st with h | h
        · left; exact h
        · right
          exact ⟨hc, _, h, by simp, by simp⟩
    · intro s hs
      simp only [step] at hs
      rcases fireTimer_pending cfg st with hp | hp
      · rw [hp] at hs; exact Or.inl hs
      · rw [hp] at hs
        rcases List.mem_append.mp hs with h | h
        · exact Or.inl h
        · rw [List.mem_singleton.mp h]; exact Or.inr (Or.inr rfl)
  | spawnErr m =>
    refine inv_extend cfg st _ hInv (by simp [step, fireSpawnError_closed]) ?_ ?_
    · by_cases hc : st.closed = true
      · left
        simp only [step]
        exact events_fireSpawnError_closed st m hc
      · simp only [Bool.not_eq_true] at hc
        rcases events_fireSpawnError st m with h | h
        · left; exact h
        · right
          exact ⟨hc, _, h, by simp, by simp⟩
    · intro s hs
      simp only [step] at hs
      rw [fireSpawnError_pending] at hs
      rcases List.mem_append.mp hs with h | h
      · exact Or.inl h
      · rw [List.mem_singleton.mp h]; exact Or.inr (Or.inr rfl)
  | settle i ok =>
    obtain ⟨h1, h2, h3, h4, h5⟩ := hInv
    simp only [step]
    rcases fireSettle_cases st i ok with heq | ⟨status, hget, hpend, hclosed, hcase⟩
    · rw [heq]; exact ⟨h1, h2, h3, h4, h5⟩
    · have hpend_sub : ∀ s ∈ (fireSettle st i ok).pending, s ∈ st.pending := by
        intro s hs
        rw [hpend] at hs
        exact List.mem_of_mem_eraseIdx hs
      have hstat : status = "SUCCESS" ∨ status = "FAILED" :=
        h5 status (List.get?_mem hget)
      have hne : events st ≠ [] := by
        intro h
        rw [h] at h1
        simp at h1
      obtain ⟨a, as, hcons⟩ := List.exists_cons_of_ne_nil hne
      rcases hcase with ⟨hcl, hev⟩ | ⟨hcl, hev⟩
      · refine ⟨by rw [hev]; exact h1, by rw [hev]; exact h2, ?_, ?_, ?_⟩
        · intro h; rw [hclosed] at h; cases h
        · intro _
          rw [hev]
          exact h4 hcl
        · intro s hs
          exact h5 s (hpend_sub s hs)
      · refine ⟨?_, ?_, ?_, ?_, ?_⟩
        · rw [hev, hcons]
          rw [hcons] at h1
          simpa using h1
        · rw [hev, hcons]
          rw [hcons] at h2
          intro x hx
          simp only [List.cons_append, List.tail_cons, List.mem_append,
            List.mem_singleton] at hx
          rcases hx with hx | hx
          · exact h2 x (by simpa using hx)
          · rw [hx]; simp
        · intro h; rw [hclosed] at h; cases h
        · intro _
          exact ⟨events st, status, hev, h3 hcl, hstat⟩
        · intro s hs
          exact h5 s (hpend_sub s hs)

lemma inv_foldl (cfg : Config) (sigs : List Sig) :
    ∀ st : St, Inv cfg st → Inv cfg (List.foldl (step cfg) st sigs) := by
  induction sigs with
  | nil => intro st h; exact h
  | cons sig sigs ih =>
    intro st h
    exact ih _ (inv_step cfg st sig h)

lemma inv_run (cfg : Config) (sigs : List Sig) : Inv cfg (run cfg sigs) :=
  inv_foldl cfg sigs (initSt cfg) (inv_init cfg)

/-! ### Once the controller is closed, the client stream is frozen -/

lemma step_closed_frozen (cfg : Config) (st : St) (sig : Sig) (h : st.closed = true) :
    (step cfg st sig).closed = true ∧ events (step cfg st sig) = events st := by
  cases sig with
  | outData s =>
    constructor
    · simp [step, send_closed_flag, h]
    · simp only [step]
      rw [events_send]
      simp [h, events]
  | errData s =>
    constructor
    · simp [step, send_closed_flag, h]
    · simp only [step]
      rw [events_send]
      simp [h, events]
  | outEnd =>
    constructor
    · simp [step, tryFinalize_closed, h]
    · simp only [step]
      rw [events_tryFinalize]
      simp [events]
  | errEnd =>
    constructor
    · simp [step, tryFinalize_closed, h]
    · simp only [step]
      rw [events_tryFinalize]
      simp [events]
  | procClose code =>
    constructor
    · simp [step, tryFinalize_closed, h]
    · simp only [step]
      rw [events_tryFinalize]
      simp [events]
  | timerFire =>
    exact ⟨by simp [step, fireTimer_closed, h], events_fireTimer_closed cfg st h⟩
  | spawnErr m =>
    exact ⟨by simp [step, fireSpawnError_closed, h], events_fireSpawnError_closed st m h⟩
  | settle i ok =>
    simp only [step]
    rcases fireSettle_cases st i ok with heq | ⟨status, _, _, hclosed, hcase⟩
    · rw [heq]; exact ⟨h, rfl⟩
    · rcases hcase with ⟨_, hev⟩ | ⟨hop, _⟩
      · exact ⟨hclosed, hev⟩
      · rw [h] at hop; cases hop

lemma foldl_closed_frozen (cfg : Config) (sigs : List Sig) :
    ∀ st : St, st.closed = true →
      (List.foldl (step cfg) st sigs).closed = true
      ∧ events (List.foldl (step cfg) st sigs) = events st := by
  induction sigs with
  | nil => intro st h; exact ⟨h, rfl⟩
  | cons sig sigs ih =>
    intro st h
    obtain ⟨h1, h2⟩ := step_closed_frozen cfg st sig h
    obtain ⟨h3, h4⟩ := ih _ h1
    refine ⟨h3, ?_⟩
    rw [List.foldl_cons, h4, h2]

/-- At most one done event is ever enqueued, over every arrival ordering. -/
lemma run_doneCount_le_one (cfg : Config) (sigs : List Sig) :
    doneCount (events (run cfg sigs)) ≤ 1 := by
  obtain ⟨_, _, h3, h4, _⟩ := inv_run cfg sigs
  cases hc : (run cfg sigs).closed with
  | false =>
    have : (events (run cfg sigs)).filter (fun e => e.event == "done") = [] := by
      rw [List.filter_eq_nil_iff]
      intro e he
      simpa using h3 hc e he
    simp [doneCount, this]
  | true =>
    obtain ⟨l, s, hev, hl, _⟩ := h4 hc
    have : (l.filter fun e => e.event == "done") = [] := by
      rw [List.filter_eq_nil_iff]
      intro e he
      simpa using hl e he
    simp [doneCount, hev, List.filter_append, this]

/-- Claim C4: for every execution and every arrival ordering, the
client-observed event sequence starts with the (unique) execution-id
event; no done event occurs anywhere but in last position, so every data
event that was enqueued appears between the execution-id event and the
done event; and when the stream has been closed by a finalize path the
last event is the done event whose payload is the literal SUCCESS or
FAILED. -/
theorem c4_event_ordering (cfg : Config) (sigs : List Sig) :
    (events (run cfg sigs)).head? = some { event := "execution_id", data := cfg.executionId }
    ∧ (∀ e ∈ (events (run cfg sigs)).tail, e.event ≠ "execution_id")
    ∧ (∀ e ∈ (events (run cfg sigs)).dropLast, e.event ≠ "done")
    ∧ ((run cfg sigs).closed = true →
        ∃ s, (events (run cfg sigs)).getLast? = some { event := "done", data := s }
          ∧ (s = "SUCCESS" ∨ s = "FAILED")) := by
  obtain ⟨h1, h2, h3, h4, _⟩ := inv_run cfg sigs
  refine ⟨h1, h2, ?_, ?_⟩
  · cases hc : (run cfg sigs).closed with
    | false =>
      intro e he
      exact h3 hc e (List.dropLast_subset _ he)
    | true =>
      obtain ⟨l, s, hev, hl, _⟩ := h4 hc
      rw [hev]
      intro e he
      rw [List.dropLast_concat] at he
      exact hl e he
  · intro hc
    obtain ⟨l, s, hev, _, hs⟩ := h4 hc
    refine ⟨s, ?_, hs⟩
    rw [hev, List.getLast?_concat]

/-- Witness for C4 at a concrete natural completion. -/
theorem c4_event_ordering_witness :
    (events (run { timeoutMs := 120000, executionId := "exec-c4" }
        [Sig.outEnd, Sig.errEnd, Sig.procClose (some 0), Sig.settle 0 true])).head? =
      some { event := "execution_id", data := "exec-c4" }
    ∧ ∃ s, (events (run { timeoutMs := 120000, executionId := "exec-c4" }
        [Sig.outEnd, Sig.errEnd, Sig.procClose (some 0), Sig.settle 0 true])).getLast? =
          some { event := "done", data := s } ∧ (s = "SUCCESS" ∨ s = "FAILED") := by
  have h := c4_event_ordering { timeoutMs := 120000, executionId := "exec-c4" }
    [Sig.outEnd, Sig.errEnd, Sig.procClose (some 0), Sig.settle 0 true]
  exact ⟨h.1, h.2.2.2 (by decide)⟩

/-! ### The double-persist defect

  tryFinalize (route.ts lines 105-125) guards only on “both streams
  drained and exit code observed”; neither it nor the timeout handler
  consults a finalized flag (the closed flag guards client events only).
  After the timeout path has fired, the SIGTERM-killed subprocess still
  delivers stdout EOF, stderr EOF and a close event, so tryFinalize runs
  its full body and initiates a second prisma.scriptExecution.update.
  The canonical timeout scenario below exhibits it. -/

/-- Claim C1 (refuted by the code — the underlying defect): in the
arrival ordering timeout-fires, then stdout EOF, stderr EOF and process
close from the killed subprocess, the Execution record update is
initiated twice, although the client still receives exactly one done
event, and over every arrival ordering at most one done event is ever
delivered. -/
theorem c1_exactly_once_finalize_bug :
    (updates (run { timeoutMs := 120000, executionId := "exec-c1" }
        [Sig.timerFire, Sig.outEnd, Sig.errEnd, Sig.procClose none,
         Sig.settle 0 true, Sig.settle 0 true])).length = 2
    ∧ doneCount (events (run { timeoutMs := 120000, executionId := "exec-c1" }
        [Sig.timerFire, Sig.outEnd, Sig.errEnd, Sig.procClose none,
         Sig.settle 0 true, Sig.settle 0 true])) = 1
    ∧ ∀ cfg sigs, doneCount (events (run cfg sigs)) ≤ 1 := by
  refine ⟨by decide, by decide, ?_⟩
  intro cfg sigs
  exact run_doneCount_le_one cfg sigs

/-- Claim C2 (last clause refuted by the code): when the timer fires, the
subprocess is sent SIGTERM and the first persistence update records
status FAILED with the synthesized message naming the configured timeout
in seconds (120000 ms gives 120s); but the natural-completion path is
not disabled — the late EOF and exit signals of the killed subprocess
re-run tryFinalize, initiating a second update. -/
theorem c2_timeout_bug :
    Action.kill "SIGTERM" ∈ (run { timeoutMs := 120000, executionId := "exec-c2" }
        [Sig.timerFire, Sig.outEnd, Sig.errEnd, Sig.procClose none,
         Sig.settle 0 false, Sig.settle 0 false]).log
    ∧ (updates (run { timeoutMs := 120000, executionId := "exec-c2" }
        [Sig.timerFire, Sig.outEnd, Sig.errEnd, Sig.procClose none,
         Sig.settle 0 false, Sig.settle 0 false])).head? =
      some { status := "FAILED", output := none,
             error := some "Script execution timed out after 120s" }
    ∧ (updates (run { timeoutMs := 120000, executionId := "exec-c2" }
        [Sig.timerFire, Sig.outEnd, Sig.errEnd, Sig.procClose none,
         Sig.settle 0 false, Sig.settle 0 false])).length = 2 := by
  refine ⟨by decide, ?_, by decide⟩
  decide

/-! ### Natural completion -/

/-- JavaScript string accumulation: successive += of the chunks. -/
def concatAll (l : List String) : String :=
  l.foldl (fun a s => a ++ s) ""

/-- The canonical natural-completion arrival ordering: the stdout chunks,
the stderr chunks, stdout EOF, stderr EOF, the close event with the exit
code, then the settlement of the persistence promise. -/
def naturalTrace (outs errs : List String) (code : Int) (ok : Bool) : List Sig :=
  (outs.map Sig.outData) ++ (errs.map Sig.errData) ++
    [Sig.outEnd, Sig.errEnd, Sig.procClose (some code), Sig.settle 0 ok]

lemma foldl_outData (cfg : Config) (outs : List String) :
    ∀ st : St, st.closed = false →
      List.foldl (step cfg) st (outs.map Sig.outData) =
        { st with fullOutput := outs.foldl (fun a s => a ++ s) st.fullOutput,
                  log := st.log ++ outs.map fun s =>
                    Action.ev { event := "stdout", data := s } } := by
  induction outs with
  | nil => intro st _; simp
  | cons s ss ih =>
    intro st h
    have hstep : step cfg st (Sig.outData s) =
        { st with fullOutput := st.fullOutput ++ s,
                  log := st.log ++ [Action.ev { event := "stdout", data := s }] } := by
      simp [step, send, h]
    simp only [List.map_cons, List.foldl_cons, hstep]
    rw [ih _ (by simp [h])]
    simp [List.append_assoc]

lemma foldl_errData (cfg : Config) (errs : List String) :
    ∀ st : St, st.closed = false →
      List.foldl (step cfg) st (errs.map Sig.errData) =
        { st with fullStderr := errs.foldl (fun a s => a ++ s) st.fullStderr,
                  log := st.log ++ errs.map fun s =>
                    Action.ev { event := "stderr", data := s } } := by
  induction errs with
  | nil => intro st _; simp
  | cons s ss ih =>
    intro st h
    have hstep : step cfg st (Sig.errData s) =
        { st with fullStderr := st.fullStderr ++ s,
                  log := st.log ++ [Action.ev { event := "stderr", data := s }] } := by
      simp [step, send, h]
    simp only [List.map_cons, List.foldl_cons, hstep]
    rw [ih _ (by simp [h])]
    simp [List.append_assoc]

/-- Full characterization of a run over the canonical natural-completion
ordering: exactly one update is initiated, with the status, output and
error fields computed by tryFinalize from the accumulated streams and the
exit code. -/
lemma run_naturalTrace_updates (cfg : Config) (outs errs : List String)
    (code : Int) (ok : Bool) :
    updates (run cfg (naturalTrace outs errs code ok)) =
      [{ status := if code = 0 then "SUCCESS" else "FAILED",
         output := if concatAll outs = ""
                   then (if code = 0 then some "(no output)" else none)
                   else some (concatAll outs),
         error := if code = 0 then none
                  else if concatAll errs = ""
                  then some ("PowerShell exited with code " ++ toString code)
                  else some (concatAll errs) }] := by
  unfold run naturalTrace
  rw [List.foldl_append, List.foldl_append]
  rw [foldl_outData cfg outs (initSt cfg) rfl]
  rw [foldl_errData cfg errs _ rfl]
  simp only [List.foldl_cons, List.foldl_nil]
  simp [step, tryFinalize, finalizeRecord, fireSettle, send, closeController,
    updates, initSt, exitCodeMessage, concatAll, List.filterMap_append,
    Option.getD]
  have hnone : ∀ l : List String,
      List.filterMap (fun _ => (none : Option UpdateData)) l = [] :=
    fun l => List.filterMap_eq_nil_iff.mpr fun a _ => rfl
  simp [Function.comp_def, hnone]

/-- Claim C3: on natural completion (both streams drained, exit code
observed), the single persistence update records SUCCESS for exit code 0
and FAILED otherwise; on failure the error field is the accumulated
stderr text verbatim when non-empty, and otherwise a synthesized message
containing the exit code. -/
theorem c3_exit_code_mapping (cfg : Config) (outs errs : List String)
    (code : Int) (ok : Bool) :
    updates (run cfg (naturalTrace outs errs code ok)) =
      [{ status := if code = 0 then "SUCCESS" else "FAILED",
         output := if concatAll outs = ""
                   then (if code = 0 then some "(no output)" else none)
                   else some (concatAll outs),
         error := if code = 0 then none
                  else if concatAll errs = ""
                  then some ("PowerShell exited with code " ++ toString code)
                  else some (concatAll errs) }] :=
  run_naturalTrace_updates cfg outs errs code ok

/-- Claim C9: an execution finalizing with status SUCCESS (exit code 0)
and an empty accumulated stdout persists the literal sentinel as its
output field, not the empty string. -/
theorem c9_empty_output_sentinel (cfg : Config) (errs : List String) (ok : Bool) :
    updates (run cfg (naturalTrace [] errs 0 ok)) =
      [{ status := "SUCCESS", output := some "(no output)", error := none }] := by
  have h := run_naturalTrace_updates cfg [] errs 0 ok
  simpa [concatAll] using h

/-! ### Persistence settles before the terminal event (claim C5)

  The scanner walks the chronological action log carrying the statuses of
  the updates initiated so far and whether the previous action was a
  promise settlement.  It accepts the log exactly when every done frame
  is immediately preceded by the settlement of a persistence promise and
  matches the status of an update initiated earlier. -/

def c5scan : List Action → List String × Bool → Option (List String × Bool)
  | [], acc => some acc
  | Action.update u :: r, acc => c5scan r (u.status :: acc.1, false)
  | Action.settled _ :: r, acc => c5scan r (acc.1, true)
  | Action.ev e :: r, acc =>
    if e.event = "done" then
      if acc.2 && acc.1.contains e.data then c5scan r (acc.1, false) else none
    else c5scan r (acc.1, false)
  | Action.kill _ :: r, acc => c5scan r (acc.1, false)
  | Action.closeCtl :: r, acc => c5scan r (acc.1, false)

lemma c5scan_append (l l' : List Action) :
    ∀ acc, c5scan (l ++ l') acc = (c5scan l acc).bind fun a => c5scan l' a := by
  induction l with
  | nil => intro acc; rfl
  | cons a r ih =>
    intro acc
    cases a with
    | ev e =>
      simp only [List.cons_append, c5scan]
      split
      · split
        · exact ih _
        · rfl
      · exact ih _
    | update u => simpa [c5scan] using ih _
    | settled ok => simpa [c5scan] using ih _
    | kill s => simpa [c5scan] using ih _
    | closeCtl => simpa [c5scan] using ih _

/-- The C5 run invariant: the log scans successfully, and every status
still pending is among the statuses of the updates initiated so far. -/
def InvC5 (st : St) : Prop :=
  ∃ seen b, c5scan st.log ([], false) = some (seen, b)
    ∧ ∀ s ∈ st.pending, seen.contains s = true

lemma invC5_init (cfg : Config) : InvC5 (initSt cfg) := by
  refine ⟨[], false, ?_, ?_⟩
  · simp [initSt, c5scan]
  · intro s hs
    simp [initSt] at hs

lemma contains_cons_of (seen : List String) (x a : String)
    (h : seen.contains a = true) : (x :: seen).contains a = true :=
  List.elem_eq_true_of_mem (List.mem_cons_of_mem x (List.mem_of_elem_eq_true h))

lemma invC5_finalizeRecord (st : St) (u : UpdateData) (h : InvC5 st) :
    InvC5 (finalizeRecord st u u.status) := by
  obtain ⟨seen, b, hscan, hpend⟩ := h
  refine ⟨u.status :: seen, false, ?_, ?_⟩
  · rw [finalizeRecord, c5scan_append, hscan]
    simp [c5scan]
  · intro s hs
    rw [finalizeRecord_pending] at hs
    rcases List.mem_append.mp hs with hmem | hmem
    · exact contains_cons_of seen u.status s (hpend s hmem)
    · rw [List.mem_singleton.mp hmem]
      exact List.elem_eq_true_of_mem (List.mem_cons_self _ _)

lemma invC5_send (st : St) (e d : String) (hne : e ≠ "done") (h : InvC5 st) :
    InvC5 (send st e d) := by
  obtain ⟨seen, b, hscan, hpend⟩ := h
  unfold send
  split
  · exact ⟨seen, b, hscan, hpend⟩
  · refine ⟨seen, false, ?_, hpend⟩
    show c5scan (st.log ++ [Action.ev { event := e, data := d }]) ([], false) =
      some (seen, false)
    rw [c5scan_append, hscan]
    simp [c5scan, hne]

lemma invC5_closeController (st : St) (h : InvC5 st) : InvC5 (closeController st) := by
  obtain ⟨seen, b, hscan, hpend⟩ := h
  unfold closeController
  split
  · exact ⟨seen, b, hscan, hpend⟩
  · refine ⟨seen, false, ?_, hpend⟩
    show c5scan (st.log ++ [Action.closeCtl]) ([], false) = some (seen, false)
    rw [c5scan_append, hscan]
    simp [c5scan]

lemma invC5_tryFinalize (st : St) (h : InvC5 st) : InvC5 (tryFinalize st) := by
  unfold tryFinalize
  split
  · exact invC5_finalizeRecord _ _ h
  · exact h

lemma invC5_step (cfg : Config) (st : St) (sig : Sig) (h : InvC5 st) :
    InvC5 (step cfg st sig) := by
  obtain ⟨seen, b, hscan, hpend⟩ := h
  cases sig with
  | outData s =>
    exact invC5_send _ "stdout" s (by decide) ⟨seen, b, hscan, hpend⟩
  | errData s =>
    exact invC5_send _ "stderr" s (by decide) ⟨seen, b, hscan, hpend⟩
  | outEnd =>
    exact invC5_tryFinalize _ ⟨seen, b, hscan, hpend⟩
  | errEnd =>
    exact invC5_tryFinalize _ ⟨seen, b, hscan, hpend⟩
  | procClose code =>
    exact invC5_tryFinalize _ ⟨seen, b, hscan, hpend⟩
  | timerFire =>
    simp only [step]
    unfold fireTimer
    split
    · apply invC5_finalizeRecord
      apply invC5_send _ _ _ (by decide)
      refine ⟨seen, false, ?_, hpend⟩
      show c5scan (st.log ++ [Action.kill "SIGTERM"]) ([], false) = some (seen, false)
      rw [c5scan_append, hscan]
      simp [c5scan]
    · exact ⟨seen, b, hscan, hpend⟩
  | spawnErr m =>
    simp only [step]
    unfold fireSpawnError
    apply invC5_finalizeRecord
    apply invC5_send _ _ _ (by decide)
    exact ⟨seen, b, hscan, hpend⟩
  | settle i ok =>
    simp only [step]
    unfold fireSettle
    cases hm : st.pending.get? i with
    | none => exact ⟨seen, b, hscan, hpend⟩
    | some status =>
      have hcont : seen.contains status = true := hpend status (List.get?_mem hm)
      have hpend1 : ∀ s ∈ st.pending.eraseIdx i, seen.contains s = true :=
        fun s hs => hpend s (List.mem_of_mem_eraseIdx hs)
      apply invC5_closeController
      unfold send
      split
      · refine ⟨seen, true, ?_, hpend1⟩
        show c5scan (st.log ++ [Action.settled ok]) ([], false) = some (seen, true)
        rw [c5scan_append, hscan]
        simp [c5scan]
      · refine ⟨seen, false, ?_, hpend1⟩
        show c5scan ((st.log ++ [Action.settled ok]) ++
            [Action.ev { event := "done", data := status }]) ([], false) =
          some (seen, false)
        rw [c5scan_append, c5scan_append, hscan]
        simp [c5scan, hcont, List.mem_of_elem_eq_true hcont]

lemma invC5_run (cfg : Config) (sigs : List Sig) : InvC5 (run cfg sigs) := by
  have hgen : ∀ st : St, InvC5 st → InvC5 (List.foldl (step cfg) st sigs) := by
    induction sigs with
    | nil => intro st h; exact h
    | cons sig sigs ih => intro st h; exact ih _ (invC5_step cfg st sig h)
  exact hgen _ (invC5_init cfg)

/-! ### Persistence failure does not suppress the terminal event -/

/-- Mark a settlement signal as a rejected promise; all other signals are
untouched. -/
def scrubSig : Sig → Sig
  | Sig.settle i _ => Sig.settle i false
  | s => s

/-- Mark a logged settlement as rejected. -/
def scrubAct : Action → Action
  | Action.settled _ => Action.settled false
  | a => a

/-- Mark every logged settlement as rejected. -/
def scrubSt (st : St) : St := { st with log := st.log.map scrubAct }

lemma scrub_send (st : St) (e d : String) :
    send (scrubSt st) e d = scrubSt (send st e d) := by
  unfold send scrubSt
  split <;> simp_all [List.map_append, scrubAct]

lemma scrub_closeController (st : St) :
    closeController (scrubSt st) = scrubSt (closeController st) := by
  unfold closeController scrubSt
  split <;> simp_all [List.map_append, scrubAct]

lemma scrub_finalizeRecord (st : St) (u : UpdateData) (s : String) :
    finalizeRecord (scrubSt st) u s = scrubSt (finalizeRecord st u s) := by
  unfold finalizeRecord scrubSt
  simp [List.map_append, scrubAct]

lemma scrub_tryFinalize (st : St) :
    tryFinalize (scrubSt st) = scrubSt (tryFinalize st) := by
  unfold tryFinalize
  by_cases hcond : (st.stdoutDone && st.stderrDone && st.exitCode.isSome) = true
  · have hcond2 : ((scrubSt st).stdoutDone && (scrubSt st).stderrDone
        && (scrubSt st).exitCode.isSome) = true := hcond
    rw [if_pos hcond2, if_pos hcond, ← scrub_finalizeRecord]
    rfl
  · have hcond2 : ¬ ((scrubSt st).stdoutDone && (scrubSt st).stderrDone
        && (scrubSt st).exitCode.isSome) = true := hcond
    rw [if_neg hcond2, if_neg hcond]

lemma scrub_step (cfg : Config) (st : St) (sig : Sig) :
    step cfg (scrubSt st) (scrubSig sig) = scrubSt (step cfg st sig) := by
  cases sig with
  | outData s =>
    simp only [scrubSig, step]
    rw [← scrub_send]
    rfl
  | errData s =>
    simp only [scrubSig, step]
    rw [← scrub_send]
    rfl
  | outEnd =>
    simp only [scrubSig, step]
    rw [← scrub_tryFinalize]
    rfl
  | errEnd =>
    simp only [scrubSig, step]
    rw [← scrub_tryFinalize]
    rfl
  | procClose code =>
    simp only [scrubSig, step]
    rw [← scrub_tryFinalize]
    rfl
  | timerFire =>
    simp only [scrubSig, step]
    unfold fireTimer
    by_cases harm : st.timerArmed = true
    · have harm2 : (scrubSt st).timerArmed = true := harm
      rw [if_pos harm2, if_pos harm, ← scrub_finalizeRecord, ← scrub_send]
      simp [scrubSt, List.map_append, scrubAct]
    · have harm2 : ¬ (scrubSt st).timerArmed = true := harm
      rw [if_neg harm2, if_neg harm]
  | spawnErr m =>
    simp only [scrubSig, step]
    unfold fireSpawnError
    rw [← scrub_finalizeRecord, ← scrub_send]
    rfl
  | settle i ok =>
    simp only [scrubSig, step]
    unfold fireSettle
    rw [show (scrubSt st).pending = st.pending from rfl]
    cases hm : st.pending.get? i with
    | none => rfl
    | some status =>
      rw [← scrub_closeController, ← scrub_send]
      simp [scrubSt, List.map_append, scrubAct]

lemma scrub_run (cfg : Config) (sigs : List Sig) :
    run cfg (sigs.map scrubSig) = scrubSt (run cfg sigs) := by
  have hinit : scrubSt (initSt cfg) = initSt cfg := by
    simp [scrubSt, initSt, scrubAct]
  have hgen : ∀ st : St,
      List.foldl (step cfg) (scrubSt st) (sigs.map scrubSig) =
        scrubSt (List.foldl (step cfg) st sigs) := by
    induction sigs with
    | nil => intro st; rfl
    | cons sig sigs ih =>
      intro st
      simp only [List.map_cons, List.foldl_cons]
      rw [scrub_step, ih]
  unfold run
  conv_lhs => rw [← hinit]
  rw [hgen]

lemma events_scrubSt (st : St) : events (scrubSt st) = events st := by
  unfold events scrubSt
  simp only
  rw [List.filterMap_map]
  congr 1
  funext a
  cases a <;> rfl

/-- Claim C5: every done frame in the chronological log is immediately
preceded by the settlement of a persistence promise whose update, with
the same terminal status, was initiated earlier (the .finally pattern:
the update happens-before and settles before the done event); and
rewriting every settlement as a rejection changes no client-observed
event, so a failing persistence update does not prevent the done event. -/
theorem c5_persist_before_done (cfg : Config) (sigs : List Sig) :
    (c5scan (run cfg sigs).log ([], false)).isSome = true
    ∧ events (run cfg (sigs.map scrubSig)) = events (run cfg sigs) := by
  constructor
  · obtain ⟨seen, b, hscan, _⟩ := invC5_run cfg sigs
    rw [hscan]
    rfl
  · rw [scrub_run, events_scrubSt]

/-! ## Spawn failure (route.ts lines 170-185, claim C7) -/

/-- Claim C7: when the subprocess cannot be started, the client receives
the error event embedding the underlying OS error message, then the done
event with payload FAILED; the Execution record is finalized with status
FAILED and the synthesized spawn-failure message; and whatever signals
arrive afterwards, the closed client stream receives no further event —
the same single-finalize guard as a normal exit. -/
theorem c7_spawn_failure (cfg : Config) (m : String) (ok : Bool) (extra : List Sig) :
    events (run cfg [Sig.spawnErr m, Sig.settle 0 ok]) =
      [{ event := "execution_id", data := cfg.executionId },
       { event := "error", data := "Failed to start PowerShell: " ++ m },
       { event := "done", data := "FAILED" }]
    ∧ updates (run cfg [Sig.spawnErr m, Sig.settle 0 ok]) =
      [{ status := "FAILED", output := none,
         error := some ("Failed to start PowerShell: " ++ m) }]
    ∧ events (run cfg ([Sig.spawnErr m, Sig.settle 0 ok] ++ extra)) =
        events (run cfg [Sig.spawnErr m, Sig.settle 0 ok]) := by
  have hrun : run cfg [Sig.spawnErr m, Sig.settle 0 ok] =
      St.mk true false false none false "" "" []
        [Action.ev (SseEvent.mk "execution_id" cfg.executionId),
          Action.ev (SseEvent.mk "error" ("Failed to start PowerShell: " ++ m)),
          Action.update (UpdateData.mk "FAILED" none
            (some ("Failed to start PowerShell: " ++ m))),
          Action.settled ok,
          Action.ev (SseEvent.mk "done" "FAILED"),
          Action.closeCtl] := by
    simp [run, step, fireSpawnError, spawnFailMessage, send, finalizeRecord,
      fireSettle, closeController, initSt, List.eraseIdx]
  refine ⟨?_, ?_, ?_⟩
  · rw [hrun]
    rfl
  · rw [hrun]
    rfl
  · have hfroz := foldl_closed_frozen cfg extra (run cfg [Sig.spawnErr m, Sig.settle 0 ok])
      (by rw [hrun])
    calc events (run cfg ([Sig.spawnErr m, Sig.settle 0 ok] ++ extra))
        = events (List.foldl (step cfg) (run cfg [Sig.spawnErr m, Sig.settle 0 ok]) extra) := by
          unfold run
          rw [List.foldl_append]
      _ = events (run cfg [Sig.spawnErr m, Sig.settle 0 ok]) := hfroz.2

/-! ## Pre-flight authorization (route.ts lines 28-60, claim C6) -/

/-- The role column of the User table (prisma migration: VIEWER is the
default and lowest tier). -/
inductive Role where
  | VIEWER
  | OPERATOR
  | ADMIN
deriving DecidableEq

/-- The immediate response of the POST handler before the stream starts. -/
inductive PreflightResponse where
  | jsonError (status : Nat) (msg : String)
  | sseStream
deriving DecidableEq

/-- Outcome of the pre-flight phase: the response, whether an Execution
row was created (prisma.scriptExecution.create runs only after every
check passed) and whether a subprocess was spawned. -/
structure PostOutcome where
  response : PreflightResponse
  executionCreated : Bool
  spawned : Bool
deriving DecidableEq

/-- The fields of the fetched Script row the checks read. -/
structure ScriptRow where
  isActive : Bool
  requiresAdmin : Bool
deriving DecidableEq

/-- The pre-flight checks of POST (route.ts lines 28-60), in source
order: missing session gives 401; missing script id gives 400; script
not found or inactive gives 404; an admin-only script with a caller
whose role is not ADMIN (including a missing user row) gives 403; a
VIEWER caller gives 403; otherwise the Execution row is created and the
subprocess spawned. -/
def postPreflight (sessionUserId : Option String) (scriptId : Option String)
    (script : Option ScriptRow) (role : Option Role) : PostOutcome :=
  match sessionUserId with
  | none => { response := PreflightResponse.jsonError 401 "Unauthorized",
              executionCreated := false, spawned := false }
  | some _ =>
    match scriptId with
    | none => { response := PreflightResponse.jsonError 400 "Script ID is required",
                executionCreated := false, spawned := false }
    | some _ =>
      match script with
      | none => { response := PreflightResponse.jsonError 404 "Script not found",
                  executionCreated := false, spawned := false }
      | some s =>
        if !s.isActive then
          { response := PreflightResponse.jsonError 404 "Script not found",
            executionCreated := false, spawned := false }
        else if s.requiresAdmin && !(role = some Role.ADMIN : Bool) then
          { response := PreflightResponse.jsonError 403 "This script requires admin privileges",
            executionCreated := false, spawned := false }
        else if role = some Role.VIEWER then
          { response := PreflightResponse.jsonError 403
              "Your role does not permit script execution. Contact an admin to upgrade your role.",
            executionCreated := false, spawned := false }
        else
          { response := PreflightResponse.sseStream,
            executionCreated := true, spawned := true }

/-- Claim C6: whenever the script is missing or inactive, or it requires
the admin role and the caller lacks it, or the caller is a VIEWER, the
handler returns an immediate non-stream JSON error, creates no Execution
record and spawns no subprocess. -/
theorem c6_authorization_gate (sessionUserId scriptId : Option String)
    (script : Option ScriptRow) (role : Option Role)
    (h : script = none
      ∨ (∃ s, script = some s ∧ s.isActive = false)
      ∨ (∃ s, script = some s ∧ s.requiresAdmin = true ∧ role ≠ some Role.ADMIN)
      ∨ role = some Role.VIEWER) :
    (∃ c msg, (postPreflight sessionUserId scriptId script role).response =
        PreflightResponse.jsonError c msg)
    ∧ (postPreflight sessionUserId scriptId script role).executionCreated = false
    ∧ (postPreflight sessionUserId scriptId script role).spawned = false := by
  cases sessionUserId with
  | none => exact ⟨⟨401, "Unauthorized", rfl⟩, rfl, rfl⟩
  | some uid =>
  cases scriptId with
  | none => exact ⟨⟨400, "Script ID is required", rfl⟩, rfl, rfl⟩
  | some sid2 =>
  rcases h with hnone | ⟨s, hs, hact⟩ | ⟨s, hs, hreq, hrole⟩ | hrole
  · subst hnone
    exact ⟨⟨404, "Script not found", rfl⟩, rfl, rfl⟩
  · subst hs
    refine ⟨⟨404, "Script not found", ?_⟩, ?_, ?_⟩ <;> simp [postPreflight, hact]
  · subst hs
    by_cases hact : s.isActive = true
    · have hcond : (s.requiresAdmin && !(role = some Role.ADMIN : Bool)) = true := by
        simp [hreq, hrole]
      refine ⟨⟨403, "This script requires admin privileges", ?_⟩, ?_, ?_⟩ <;>
        simp [postPreflight, hact, hcond]
    · simp only [Bool.not_eq_true] at hact
      refine ⟨⟨404, "Script not found", ?_⟩, ?_, ?_⟩ <;> simp [postPreflight, hact]
  · cases script with
    | none => exact ⟨⟨404, "Script not found", rfl⟩, rfl, rfl⟩
    | some s =>
      by_cases hact : s.isActive = true
      · by_cases hadm : (s.requiresAdmin && !(role = some Role.ADMIN : Bool)) = true
        · refine ⟨⟨403, "This script requires admin privileges", ?_⟩, ?_, ?_⟩ <;>
            simp [postPreflight, hact, hadm]
        · have hreqf : s.requiresAdmin = false := by
            by_contra hx
            simp only [Bool.not_eq_false] at hx
            exact hadm (by simp [hx, hrole])
          refine ⟨⟨403,
            "Your role does not permit script execution. Contact an admin to upgrade your role.",
            ?_⟩, ?_, ?_⟩ <;>
            simp [postPreflight, hact, hreqf, hrole]
      · simp only [Bool.not_eq_true] at hact
        refine ⟨⟨404, "Script not found", ?_⟩, ?_, ?_⟩ <;> simp [postPreflight, hact]

/-- Witness for C6: a VIEWER requesting an active ordinary script is
rejected with no Execution row and no subprocess. -/
theorem c6_authorization_gate_witness :
    (∃ c msg, (postPreflight (some "user-1") (some "script-1")
        (some { isActive := true, requiresAdmin := false }) (some Role.VIEWER)).response =
        PreflightResponse.jsonError c msg)
    ∧ (postPreflight (some "user-1") (some "script-1")
        (some { isActive := true, requiresAdmin := false }) (some Role.VIEWER)).executionCreated = false
    ∧ (postPreflight (some "user-1") (some "script-1")
        (some { isActive := true, requiresAdmin := false }) (some Role.VIEWER)).spawned = false :=
  c6_authorization_gate (some "user-1") (some "script-1")
    (some { isActive := true, requiresAdmin := false }) (some Role.VIEWER)
    (Or.inr (Or.inr (Or.inr rfl)))

end ToolsApp
